import Mathlib

/-!
Verification of the KrakenBots decision core: a shallow embedding of
`indicators.py`, `multi_timeframe.py`, `risk_manager.py` and the
position-handling cycle of `main.py`, with theorems settling the spec
claims about them.  Python floats are modelled by exact rationals.
-/

namespace KrakenBots

/-! ### Configuration constants (`config.py`) -/

def ATR_PERIOD : ℕ := 14
def SMA_PERIOD : ℕ := 20
def RSI_PERIOD : ℕ := 14
def MACD_FAST : ℕ := 12
def MACD_SLOW : ℕ := 26
def MACD_SIGNAL : ℕ := 9
def MAX_DRAWDOWN_PERCENT : ℚ := 5/100
def MAX_CONCURRENT_TRADES : ℕ := 2
def TRAILING_STOP_DISTANCE : ℚ := 1/100
def PROFIT_TARGET_1 : ℚ := 2/100
def PROFIT_TARGET_1_SIZE : ℚ := 1/2
def PROFIT_TARGET_2 : ℚ := 4/100
def PROFIT_TARGET_2_SIZE : ℚ := 3/10
def PROFIT_TARGET_3 : ℚ := 6/100
def PROFIT_TARGET_3_SIZE : ℚ := 1/5
def BREAKEVEN_STOP_TRIGGER : ℚ := 15/1000

/-! ### Candles (`indicators.py` OHLC rows `[timestamp, open, high, low, close, vwap, volume, count]`) -/

structure Candle where
  ts : ℚ
  o : ℚ
  h : ℚ
  l : ℚ
  c : ℚ
  vwap : ℚ
  vol : ℚ
  cnt : ℚ
  deriving DecidableEq, Repr, Inhabited

/-- Last `n` elements of a list, as Python's `l[-n:]` (for `n ≤ l.length`). -/
def lastN (n : ℕ) (l : List ℚ) : List ℚ := l.drop (l.length - n)

/-- `indicators.calculate_sma`. -/
def calculate_sma (ohlc_data : List Candle) (period : ℕ) : Option ℚ :=
  if ohlc_data.length < period then none
  else
    let closes := ohlc_data.map (·.c)
    some ((lastN period closes).sum / (period : ℚ))

/-- The true range of a candle given its predecessor (`indicators.calculate_atr`, loop body). -/
def trueRange (prev cur : Candle) : ℚ :=
  max (cur.h - cur.l) (max |cur.h - prev.c| |cur.l - prev.c|)

/-- The per-candle true ranges of consecutive candle pairs (`indicators.calculate_atr` loop). -/
def true_ranges (ohlc_data : List Candle) : List ℚ :=
  List.zipWith trueRange ohlc_data ohlc_data.tail

/-- `indicators.calculate_atr`. -/
def calculate_atr (ohlc_data : List Candle) (period : ℕ) : Option ℚ :=
  if ohlc_data.length < period + 1 then none
  else
    let trs := true_ranges ohlc_data
    if trs.length < period then none
    else some ((lastN period trs).sum / (period : ℚ))

/-- The consecutive close-to-close price changes (`np.diff(closes)` in `calculate_rsi`). -/
def deltasOf (closes : List ℚ) : List ℚ :=
  List.zipWith (· - ·) closes.tail closes

/-- `indicators.calculate_rsi`. -/
def calculate_rsi (ohlc_data : List Candle) (period : ℕ) : Option ℚ :=
  if ohlc_data.length < period + 1 then none
  else
    let closes := ohlc_data.map (·.c)
    let deltas := deltasOf closes
    let gains := deltas.map (fun d => if 0 < d then d else 0)
    let losses := deltas.map (fun d => if d < 0 then -d else 0)
    let avg_gain := (lastN period gains).sum / (period : ℚ)
    let avg_loss := (lastN period losses).sum / (period : ℚ)
    if avg_loss = 0 then some 100
    else
      let rs := avg_gain / avg_loss
      some (100 - 100 / (1 + rs))

/-- Recursive EMA tail: `ema[i] = data[i]*m + ema[i-1]*(1-m)` (`indicators._calculate_ema_array` loop). -/
def emaTail (m : ℚ) (prev : ℚ) : List ℚ → List ℚ
  | [] => []
  | v :: vs =>
    let e := v * m + prev * (1 - m)
    e :: emaTail m e vs

/-- `indicators._calculate_ema_array` (seeded with the first value). -/
def _calculate_ema_array (data : List ℚ) (period : ℕ) : List ℚ :=
  match data with
  | [] => []
  | x :: xs => x :: emaTail (2 / ((period : ℚ) + 1)) x xs

/-- `indicators.calculate_macd`. -/
def calculate_macd (ohlc_data : List Candle) (fast slow signal : ℕ) :
    Option ℚ × Option ℚ × Option ℚ :=
  if ohlc_data.length < slow + signal then (none, none, none)
  else
    let closes := ohlc_data.map (·.c)
    let ema_fast_array := _calculate_ema_array closes fast
    let ema_slow_array := _calculate_ema_array closes slow
    let macd_array := List.zipWith (· - ·) ema_fast_array ema_slow_array
    let signal_array := _calculate_ema_array macd_array signal
    (some (macd_array.getLastD 0), some (signal_array.getLastD 0),
     some (macd_array.getLastD 0 - signal_array.getLastD 0))

/-! ### Candlestick analysis (`indicators.py`) -/

structure CandleInfo where
  o : ℚ
  h : ℚ
  l : ℚ
  c : ℚ
  v : ℚ
  is_bullish : Bool
  is_bearish : Bool
  body : ℚ
  total_range : ℚ
  upper_wick : ℚ
  lower_wick : ℚ
  midpoint : ℚ
  deriving DecidableEq, Repr

/-- `indicators.get_candle_info`. -/
def get_candle_info (candle : Candle) : CandleInfo :=
  { o := candle.o, h := candle.h, l := candle.l, c := candle.c, v := candle.vol
    is_bullish := decide (candle.o < candle.c)
    is_bearish := decide (candle.c < candle.o)
    body := |candle.c - candle.o|
    total_range := candle.h - candle.l
    upper_wick := candle.h - max candle.o candle.c
    lower_wick := min candle.o candle.c - candle.l
    midpoint := (candle.o + candle.c) / 2 }

/-- The last candle of a sequence (`data[-1]`; only used under nonemptiness guards). -/
def lastCandle (l : List Candle) : Candle := l.getLastD default

/-- `indicators.check_hourly_trend`. -/
def check_hourly_trend (hourly_ohlc : List Candle) : Int :=
  if hourly_ohlc.length < 1 then 0
  else
    let latest_candle := get_candle_info (lastCandle hourly_ohlc)
    if latest_candle.is_bullish = true ∧ 1/2 < latest_candle.body / latest_candle.total_range then 1
    else if latest_candle.is_bearish = true ∧ 1/2 < latest_candle.body / latest_candle.total_range then -1
    else 0

/-- `indicators._cluster_levels` cluster mean (`sum(current_cluster)/len(current_cluster)`). -/
def clusterMean (cur : List ℚ) : ℚ := cur.sum / (cur.length : ℚ)

/-- The `for level in levels[1:]` loop of `indicators._cluster_levels`; the current
cluster is kept most-recent-first, so `cur.headD 0` is Python's `current_cluster[-1]`. -/
def clusterFold (threshold : ℚ) : List ℚ → List ℚ → List ℚ → List ℚ
  | clustered, cur, [] => clustered ++ [clusterMean cur]
  | clustered, cur, level :: rest =>
    if |level - cur.headD 0| / cur.headD 0 < threshold then
      clusterFold threshold clustered (level :: cur) rest
    else
      clusterFold threshold (clustered ++ [clusterMean cur]) [level] rest

/-- `indicators._cluster_levels`. -/
def _cluster_levels (levels : List ℚ) (threshold : ℚ) : List ℚ :=
  match List.insertionSort (· ≤ ·) levels with
  | [] => []
  | x :: rest => clusterFold threshold [] [x] rest

/-! ### Multi-timeframe validation (`multi_timeframe.py`) -/

/-- `multi_timeframe.validate_trend_alignment`. -/
def validate_trend_alignment (primary_signal : Int) (trend_data : List Candle) : Bool :=
  if trend_data.length < 2 then false
  else
    let trend_direction := check_hourly_trend trend_data
    let trend_sma := calculate_sma trend_data (min SMA_PERIOD trend_data.length)
    let current_trend_candle := get_candle_info (lastCandle trend_data)
    if 0 < primary_signal then
      if 0 ≤ trend_direction then
        match trend_sma with
        | none => true
        | some s => if s ≤ current_trend_candle.c then true else false
      else false
    else if primary_signal < 0 then
      if trend_direction ≤ 0 then
        match trend_sma with
        | none => true
        | some s => if current_trend_candle.c ≤ s then true else false
      else false
    else false

/-! ### Risk manager (`risk_manager.py`) -/

structure Position where
  entry_price : ℚ
  volume : ℚ
  initial_volume : ℚ
  stop_loss : ℚ
  highest_price : ℚ
  trailing_stop_active : Bool
  profit_targets_hit : List String
  entry_time : ℚ
  breakeven_stop_set : Bool
  deriving DecidableEq, Repr, Inhabited

structure TradeRecord where
  entry_price : ℚ
  exit_price : ℚ
  volume : ℚ
  pnl : ℚ
  pnl_pct : ℚ
  entry_time : ℚ
  exit_time : ℚ
  duration : ℚ
  exit_reason : String
  profit_targets_hit : List String
  deriving DecidableEq, Repr

structure RiskManager where
  initial_equity : ℚ
  peak_equity : ℚ
  current_equity : ℚ
  max_drawdown : ℚ
  active_positions : List Position
  trade_history : List TradeRecord
  circuit_breaker_active : Bool
  deriving DecidableEq, Repr

/-- `RiskManager.__init__`. -/
def riskManagerInit (initial_equity : ℚ) : RiskManager :=
  { initial_equity := initial_equity
    peak_equity := initial_equity
    current_equity := initial_equity
    max_drawdown := 0
    active_positions := []
    trade_history := []
    circuit_breaker_active := false }

/-- `RiskManager.update_equity`; also returns the current drawdown. -/
def update_equity (rm : RiskManager) (new_equity : ℚ) : RiskManager × ℚ :=
  let rm := { rm with current_equity := new_equity }
  let rm := if rm.peak_equity < new_equity then { rm with peak_equity := new_equity } else rm
  let current_drawdown := (rm.peak_equity - new_equity) / rm.peak_equity
  let rm := if rm.max_drawdown < current_drawdown then { rm with max_drawdown := current_drawdown } else rm
  let rm := if MAX_DRAWDOWN_PERCENT ≤ current_drawdown then { rm with circuit_breaker_active := true } else rm
  (rm, current_drawdown)

/-- `RiskManager.reset_circuit_breaker`. -/
def reset_circuit_breaker (rm : RiskManager) : RiskManager :=
  { rm with circuit_breaker_active := false, peak_equity := rm.current_equity }

/-- `RiskManager.add_position`. -/
def add_position (rm : RiskManager) (entry_price volume stop_loss : ℚ) (now : ℚ) :
    RiskManager × Position :=
  let position : Position :=
    { entry_price := entry_price
      volume := volume
      initial_volume := volume
      stop_loss := stop_loss
      highest_price := entry_price
      trailing_stop_active := false
      profit_targets_hit := []
      entry_time := now
      breakeven_stop_set := false }
  ({ rm with active_positions := rm.active_positions ++ [position] }, position)

/-- The body of `RiskManager.update_position` acting on the indexed position
(the dictionary the Python code mutates in place). -/
def update_position_pos (position0 : Position) (current_price : ℚ) :
    Position × String × ℚ × Option String :=
  let entry_price := position0.entry_price
  let profit_pct := (current_price - entry_price) / entry_price
  let position :=
    if position0.highest_price < current_price then
      { position0 with highest_price := current_price }
    else position0
  if current_price ≤ position.stop_loss then
    (position, "full_exit", position.volume, some "stop_loss")
  else if position.breakeven_stop_set = false ∧ BREAKEVEN_STOP_TRIGGER ≤ profit_pct then
    ({ position with stop_loss := entry_price, breakeven_stop_set := true },
     "update_stop", 0, some "breakeven")
  else if PROFIT_TARGET_3 ≤ profit_pct ∧ "3" ∉ position.profit_targets_hit then
    let exit_volume := position.volume * PROFIT_TARGET_3_SIZE
    ({ position with volume := position.volume - exit_volume,
                     profit_targets_hit := position.profit_targets_hit ++ ["3"] },
     "partial_exit", exit_volume, some "target_3")
  else if PROFIT_TARGET_2 ≤ profit_pct ∧ "2" ∉ position.profit_targets_hit then
    let exit_volume := position.volume * PROFIT_TARGET_2_SIZE
    ({ position with volume := position.volume - exit_volume,
                     profit_targets_hit := position.profit_targets_hit ++ ["2"] },
     "partial_exit", exit_volume, some "target_2")
  else if PROFIT_TARGET_1 ≤ profit_pct ∧ "1" ∉ position.profit_targets_hit then
    let exit_volume := position.volume * PROFIT_TARGET_1_SIZE
    ({ position with volume := position.volume - exit_volume,
                     profit_targets_hit := position.profit_targets_hit ++ ["1"],
                     trailing_stop_active := true },
     "partial_exit", exit_volume, some "target_1")
  else if position.trailing_stop_active = true ∧
          position.stop_loss < position.highest_price * (1 - TRAILING_STOP_DISTANCE) then
    ({ position with stop_loss := position.highest_price * (1 - TRAILING_STOP_DISTANCE) },
     "update_stop", 0, some "trailing")
  else
    (position, "hold", 0, none)

/-- `RiskManager.update_position`: the in-place mutation of the indexed position
becomes writing the updated position back at the index. -/
def update_position (rm : RiskManager) (position_idx : ℕ) (current_price : ℚ) :
    RiskManager × String × ℚ × Option String :=
  if h : position_idx < rm.active_positions.length then
    let r := update_position_pos (rm.active_positions.get ⟨position_idx, h⟩) current_price
    ({ rm with active_positions := rm.active_positions.set position_idx r.1 }, r.2)
  else
    (rm, "hold", 0, none)

/-- `RiskManager.remove_position`. -/
def remove_position (rm : RiskManager) (position_idx : ℕ) (exit_price : ℚ)
    (reason : String) (now : ℚ) : RiskManager × Option TradeRecord :=
  if h : position_idx < rm.active_positions.length then
    let position := rm.active_positions.get ⟨position_idx, h⟩
    let pnl := (exit_price - position.entry_price) * position.initial_volume
    let pnl_pct := (exit_price - position.entry_price) / position.entry_price
    let trade_record : TradeRecord :=
      { entry_price := position.entry_price
        exit_price := exit_price
        volume := position.initial_volume
        pnl := pnl
        pnl_pct := pnl_pct
        entry_time := position.entry_time
        exit_time := now
        duration := now - position.entry_time
        exit_reason := reason
        profit_targets_hit := position.profit_targets_hit }
    ({ rm with active_positions := rm.active_positions.eraseIdx position_idx,
               trade_history := rm.trade_history ++ [trade_record] }, some trade_record)
  else
    (rm, none)

/-- A run of `update_position` calls at a fixed index over a price sequence. -/
def update_run (rm : RiskManager) (idx : ℕ) : List ℚ → RiskManager
  | [] => rm
  | q :: qs => update_run (update_position rm idx q).1 idx qs

/-- A run of `update_equity` calls over an equity sequence. -/
def update_equity_run (rm : RiskManager) : List ℚ → RiskManager
  | [] => rm
  | e :: es => update_equity_run (update_equity rm e).1 es

/-- The per-position slice of one cycle of `main.main` (lines 181-199): call
`update_position`, then dispatch on the action; a full exit places a sell order
and removes the position only when the order is confirmed; a partial exit
places a sell order whose result is discarded; stop updates and holds place no
order.  `order_confirmed` models whether `kraken_api.place_order` returned a
confirmation. -/
def handle_position_action (rm : RiskManager) (idx : ℕ) (price : ℚ)
    (order_confirmed : Bool) (now : ℚ) : RiskManager :=
  let r := update_position rm idx price
  let rm2 := r.1
  let action := r.2.1
  let reason := r.2.2.2
  if action = "full_exit" then
    if order_confirmed then (remove_position rm2 idx price (reason.getD "") now).1
    else rm2
  else rm2

/-- The position after a run of `update_position_pos` steps. -/
def runPos (p : Position) : List ℚ → Position
  | [] => p
  | q :: qs => runPos (update_position_pos p q).1 qs

/-- The relation holding between adjacent output levels of `_cluster_levels`:
ordered, and too far apart (relatively) to be merged again. -/
def sepRel (t : ℚ) (a b : ℚ) : Prop := a ≤ b ∧ ¬(|b - a| / a < t)

/-- A level list that `_cluster_levels` maps to itself: positive levels whose
adjacent pairs all fail the merge test. -/
def clusterSep (t : ℚ) (l : List ℚ) : Prop :=
  (∀ x ∈ l, 0 < x) ∧ l.Chain' (sepRel t)

/-! ### Concrete states used by the example scenarios -/

/-- Scenario B of the spec: a fresh manager holding a position opened at 50000
with volume 0.1 and stop 49800. -/
def rm0C5 : RiskManager :=
  (add_position (riskManagerInit 1000) 50000 (1/10) 49800 0).1

def c5_state1 : RiskManager := (update_position rm0C5 0 50100).1

def c5_state2 : RiskManager := (update_position c5_state1 0 50900).1

def c5_state3 : RiskManager := (update_position c5_state2 0 51200).1

/-- A manager holding a position sitting just below its first profit tier
(breakeven stop already set, no tiers hit). -/
def rmC1 : RiskManager :=
  { riskManagerInit 1000 with
      active_positions :=
        [{ entry_price := 50000, volume := 1/10, initial_volume := 1/10, stop_loss := 49800,
           highest_price := 50000, trailing_stop_active := false, profit_targets_hit := [],
           entry_time := 0, breakeven_stop_set := true }] }

/-- A manager holding a position whose initial stop-loss 101 is above its entry price 100. -/
def rmC2 : RiskManager := (add_position (riskManagerInit 1000) 100 1 101 0).1

/-- A manager whose circuit breaker is active. -/
def rmBroken : RiskManager := { riskManagerInit 5 with circuit_breaker_active := true }

/-- The per-position invariant maintained by `update_position`: volume stays in
`[0, iv]`, before the breakeven flag is set the stop is at most the entry price,
and the trailing stop can only be active once the breakeven flag is set. -/
def PosInv (iv : ℚ) (p : Position) : Prop :=
  0 ≤ p.volume ∧ p.volume ≤ iv ∧
  (p.breakeven_stop_set = false → p.stop_loss ≤ p.entry_price) ∧
  (p.trailing_stop_active = true → p.breakeven_stop_set = true)

/-- The position obtained by `add_position` on a fresh manager followed by a run
of `update_position` calls at index 0. -/
def positionAfter (entry vol stop now : ℚ) (prices : List ℚ) : Position :=
  (update_run (add_position (riskManagerInit 1000) entry vol stop now).1 0
    prices).active_positions.headD default

/-- Multiplying all prices (open, high, low, close) of a candle by `k`. -/
def scaleCandle (k : ℚ) (cd : Candle) : Candle :=
  { cd with o := k * cd.o, h := k * cd.h, l := k * cd.l, c := k * cd.c }

def candW1 : Candle := { ts := 0, o := 1, h := 2, l := 1, c := 1, vwap := 1, vol := 1, cnt := 1 }

def candW2 : Candle := { ts := 1, o := 1, h := 2, l := 1, c := 2, vwap := 1, vol := 1, cnt := 1 }

/-- Two candles with rising closes (all deltas non-negative). -/
def dataC9 : List Candle := [candW1, candW2]

def candA : Candle := { ts := 0, o := 299, h := 301, l := 298, c := 300, vwap := 0, vol := 0, cnt := 0 }

def candB : Candle := { ts := 1, o := 100, h := 110, l := 95, c := 108, vwap := 0, vol := 0, cnt := 0 }

/-- A two-candle trend sequence whose latest candle is dominantly bullish but
closes far below the average of the two closes. -/
def trendDataC4 : List Candle := [candA, candB]

/-- The bullish validation condition exactly as claim C4 words it: the latest
trend candle non-bearish by body dominance, and the close at or above the
SMA over `SMA_PERIOD` candles, with the comparison skipped exactly when that
SMA is undefined for lack of history. -/
def specC4Bullish (trend_data : List Candle) : Prop :=
  0 ≤ check_hourly_trend trend_data ∧
  ∀ s ∈ calculate_sma trend_data SMA_PERIOD, s ≤ (get_candle_info (lastCandle trend_data)).c

/-! ## Theorems settling the claims -/

/-- C6: for every candle sequence shorter than an indicator's minimum window
(`period` for SMA, `period+1` for ATR and RSI, `slow+signal` for MACD), the
indicator returns its explicit undefined result (`none`, or a `none` tuple)
rather than a numeric value. -/
theorem claim_C6 (data : List Candle) (psma patr prsi fast slow sig : ℕ) :
    (data.length < psma → calculate_sma data psma = none) ∧
    (data.length < patr + 1 → calculate_atr data patr = none) ∧
    (data.length < prsi + 1 → calculate_rsi data prsi = none) ∧
    (data.length < slow + sig → calculate_macd data fast slow sig = (none, none, none)) := by
  refine ⟨fun h => ?_, fun h => ?_, fun h => ?_, fun h => ?_⟩ <;>
    simp [calculate_sma, calculate_atr, calculate_rsi, calculate_macd, h]

/-- Witness for C6 at the empty candle list with the configured periods. -/
theorem claim_C6_witness :
    ([] : List Candle).length < 20 ∧ ([] : List Candle).length < 14 + 1 ∧
    ([] : List Candle).length < 26 + 9 ∧
    calculate_sma [] 20 = none ∧ calculate_atr [] 14 = none ∧
    calculate_rsi [] 14 = none ∧ calculate_macd [] 12 26 9 = (none, none, none) :=
  ⟨by decide, by decide, by decide,
   (claim_C6 [] 20 14 14 12 26 9).1 (by decide),
   (claim_C6 [] 20 14 14 12 26 9).2.1 (by decide),
   (claim_C6 [] 20 14 14 12 26 9).2.2.1 (by decide),
   (claim_C6 [] 20 14 14 12 26 9).2.2.2 (by decide)⟩

/-- C10: `update_position` at an index at or beyond the number of active positions
returns `("hold", 0, none)` and `remove_position` returns `none`, and in both
cases the whole manager state (positions, trade history) is unchanged. -/
theorem claim_C10 (rm : RiskManager) (idx : ℕ) (price exit_price now : ℚ) (reason : String)
    (h : rm.active_positions.length ≤ idx) :
    update_position rm idx price = (rm, "hold", 0, none) ∧
    remove_position rm idx exit_price reason now = (rm, none) := by
  constructor
  · simp [update_position, Nat.not_lt.mpr h]
  · simp [remove_position, Nat.not_lt.mpr h]

/-- Witness for C10 on an empty manager at index 0. -/
theorem claim_C10_witness :
    (riskManagerInit 1000).active_positions.length ≤ 0 ∧
    update_position (riskManagerInit 1000) 0 5 = (riskManagerInit 1000, "hold", 0, none) ∧
    remove_position (riskManagerInit 1000) 0 5 "stop_loss" 0 = (riskManagerInit 1000, none) :=
  ⟨by simp [riskManagerInit],
   (claim_C10 (riskManagerInit 1000) 0 5 5 0 "stop_loss" (by simp [riskManagerInit])).1,
   (claim_C10 (riskManagerInit 1000) 0 5 5 0 "stop_loss" (by simp [riskManagerInit])).2⟩

/-- `update_equity` never clears an active circuit breaker. -/
theorem update_equity_flag (rm : RiskManager) (e : ℚ)
    (h : rm.circuit_breaker_active = true) :
    (update_equity rm e).1.circuit_breaker_active = true := by
  simp only [update_equity]
  split_ifs <;> simp_all

/-- C3: once the circuit breaker is active it stays active across any finite
sequence of `update_equity` calls with arbitrary equity values, and an explicit
`reset_circuit_breaker` clears it and sets peak equity to the current equity. -/
theorem claim_C3 (rm : RiskManager) (eqs : List ℚ) (h : rm.circuit_breaker_active = true) :
    (update_equity_run rm eqs).circuit_breaker_active = true ∧
    ∀ rm2 : RiskManager, (reset_circuit_breaker rm2).circuit_breaker_active = false ∧
      (reset_circuit_breaker rm2).peak_equity = rm2.current_equity := by
  refine ⟨?_, fun rm2 => ⟨rfl, rfl⟩⟩
  induction eqs generalizing rm with
  | nil => exact h
  | cons e es ih => exact ih _ (update_equity_flag rm e h)

/-- Witness for C3 on a tripped manager and the equity path `[3, 10]`. -/
theorem claim_C3_witness :
    rmBroken.circuit_breaker_active = true ∧
    (update_equity_run rmBroken [3, 10]).circuit_breaker_active = true ∧
    ∀ rm2 : RiskManager, (reset_circuit_breaker rm2).circuit_breaker_active = false ∧
      (reset_circuit_breaker rm2).peak_equity = rm2.current_equity :=
  ⟨rfl, (claim_C3 rmBroken [3, 10] rfl).1, (claim_C3 rmBroken [3, 10] rfl).2⟩

/-- C5 fails as stated: the first update at price 50100 returns `"hold"` but does
change the position state — the highest-price tracker advances from 50000 to 50100,
so it is not true that the state is "exactly as before". -/
theorem claim_C5_counterexample :
    (update_position rm0C5 0 50100).2.1 = "hold" ∧ c5_state1 ≠ rm0C5 := by
  constructor <;>
    norm_num [rm0C5, c5_state1, update_position, update_position_pos, add_position,
      riskManagerInit, BREAKEVEN_STOP_TRIGGER, PROFIT_TARGET_1, PROFIT_TARGET_2,
      PROFIT_TARGET_3, RiskManager.mk.injEq, Position.mk.injEq]

/-- C5 (amended): on the position opened at 50000 with volume 0.1 and stop 49800,
price 50100 yields a hold in which only the highest-price tracker advances;
price 50900 yields a breakeven stop update setting the stop to 50000; price
51200 yields a tier-1 partial exit of volume 0.05, leaving volume 0.05, stop
50000, tier hit-set `{"1"}` and the trailing stop active. -/
theorem claim_C5_amended :
    (update_position rm0C5 0 50100).2.1 = "hold" ∧
    c5_state1.active_positions =
      [{ entry_price := 50000, volume := 1/10, initial_volume := 1/10, stop_loss := 49800,
         highest_price := 50100, trailing_stop_active := false, profit_targets_hit := [],
         entry_time := 0, breakeven_stop_set := false }] ∧
    (update_position c5_state1 0 50900).2.1 = "update_stop" ∧
    (update_position c5_state1 0 50900).2.2.2 = some "breakeven" ∧
    c5_state2.active_positions =
      [{ entry_price := 50000, volume := 1/10, initial_volume := 1/10, stop_loss := 50000,
         highest_price := 50900, trailing_stop_active := false, profit_targets_hit := [],
         entry_time := 0, breakeven_stop_set := true }] ∧
    (update_position c5_state2 0 51200).2.1 = "partial_exit" ∧
    (update_position c5_state2 0 51200).2.2.1 = 1/20 ∧
    (update_position c5_state2 0 51200).2.2.2 = some "target_1" ∧
    c5_state3.active_positions =
      [{ entry_price := 50000, volume := 1/20, initial_volume := 1/10, stop_loss := 50000,
         highest_price := 51200, trailing_stop_active := true, profit_targets_hit := ["1"],
         entry_time := 0, breakeven_stop_set := true }] := by
  refine ⟨?_, ?_, ?_, ?_, ?_, ?_, ?_, ?_, ?_⟩ <;>
    norm_num [rm0C5, c5_state1, c5_state2, c5_state3, update_position, update_position_pos,
      add_position, riskManagerInit, BREAKEVEN_STOP_TRIGGER, PROFIT_TARGET_1, PROFIT_TARGET_2,
      PROFIT_TARGET_3, PROFIT_TARGET_1_SIZE]

/-- C1 fails on the code: when a tier-1 partial exit fires and the sell order is
NOT confirmed, the manager still keeps the mutated position — volume reduced to
0.05 and tier "1" recorded — because `update_position` mutates before the order
is placed and `main` discards `place_order`'s result for partial exits. -/
theorem claim_C1_order_failure_still_mutates :
    (update_position rmC1 0 51200).2.1 = "partial_exit" ∧
    handle_position_action rmC1 0 51200 false 0 ≠ rmC1 ∧
    (handle_position_action rmC1 0 51200 false 0).active_positions =
      [{ entry_price := 50000, volume := 1/20, initial_volume := 1/10, stop_loss := 49800,
         highest_price := 51200, trailing_stop_active := true, profit_targets_hit := ["1"],
         entry_time := 0, breakeven_stop_set := true }] := by
  refine ⟨?_, ?_, ?_⟩ <;>
    norm_num [rmC1, handle_position_action, update_position, update_position_pos,
      riskManagerInit, BREAKEVEN_STOP_TRIGGER, PROFIT_TARGET_1, PROFIT_TARGET_2,
      PROFIT_TARGET_3, PROFIT_TARGET_1_SIZE, RiskManager.mk.injEq, Position.mk.injEq]

/-- C2 fails as stated: a position created by `add_position` with stop-loss 101
above its entry price 100 has its stop LOWERED to 100 by the breakeven update at
the (positive) price 102. -/
theorem claim_C2_counterexample :
    (0:ℚ) < 102 ∧
    (rmC2.active_positions.headD default).stop_loss = 101 ∧
    ((update_position rmC2 0 102).1.active_positions.headD default).stop_loss = 100 := by
  refine ⟨by norm_num, ?_, ?_⟩ <;>
    norm_num [rmC2, update_position, update_position_pos, add_position, riskManagerInit,
      BREAKEVEN_STOP_TRIGGER, PROFIT_TARGET_1, PROFIT_TARGET_2, PROFIT_TARGET_3]

/-- One `update_position` step preserves the position invariant, never increases
the current volume, and never lowers the stop-loss. -/
theorem update_position_pos_step (iv : ℚ) (p : Position) (price : ℚ) (hinv : PosInv iv p) :
    PosInv iv (update_position_pos p price).1 ∧
    (update_position_pos p price).1.volume ≤ p.volume ∧
    p.stop_loss ≤ (update_position_pos p price).1.stop_loss := by
  obtain ⟨h0, h1, h2, h3⟩ := hinv
  simp only [update_position_pos, PROFIT_TARGET_1, PROFIT_TARGET_2, PROFIT_TARGET_3,
    PROFIT_TARGET_1_SIZE, PROFIT_TARGET_2_SIZE, PROFIT_TARGET_3_SIZE,
    BREAKEVEN_STOP_TRIGGER, TRAILING_STOP_DISTANCE]
  split_ifs <;> simp_all [PosInv] <;>
    first
      | exact ⟨by linarith, by linarith⟩
      | (obtain ⟨hA, hB⟩ := ‹_ ∧ _›
         linarith)
      | (obtain ⟨hA, hB⟩ := ‹_ ∧ _›
         refine ⟨by linarith, by linarith, ?_⟩
         by_contra hbs
         rw [Bool.not_eq_true] at hbs
         simp_all
         linarith)

/-- A run of `update_position_pos` steps preserves the invariant, never increases
the volume, and never lowers the stop-loss. -/
theorem runPos_props (iv : ℚ) (prices : List ℚ) :
    ∀ p : Position, PosInv iv p →
      PosInv iv (runPos p prices) ∧ (runPos p prices).volume ≤ p.volume ∧
      p.stop_loss ≤ (runPos p prices).stop_loss := by
  induction prices with
  | nil => exact fun p hp => ⟨hp, le_refl _, le_refl _⟩
  | cons q qs ih =>
    intro p hp
    obtain ⟨hinv, hvol, hstop⟩ := update_position_pos_step iv p q hp
    obtain ⟨hinv2, hvol2, hstop2⟩ := ih _ hinv
    exact ⟨hinv2, le_trans hvol2 hvol, le_trans hstop hstop2⟩

theorem runPos_append (l1 l2 : List ℚ) :
    ∀ p : Position, runPos p (l1 ++ l2) = runPos (runPos p l1) l2 := by
  induction l1 with
  | nil => intro p; rfl
  | cons q qs ih => intro p; simp [runPos, ih]

/-- On a manager holding exactly one position, a run of `update_position` calls
at index 0 is the corresponding run of per-position steps. -/
theorem update_run_singleton (prices : List ℚ) :
    ∀ (rm : RiskManager) (p : Position), rm.active_positions = [p] →
      (update_run rm 0 prices).active_positions = [runPos p prices] := by
  induction prices with
  | nil => intro rm p h; simpa [update_run, runPos] using h
  | cons q qs ih =>
    intro rm p h
    have hstep : (update_position rm 0 q).1.active_positions = [(update_position_pos p q).1] := by
      simp [update_position, h]
    exact ih _ _ hstep

theorem positionAfter_eq (entry vol stop now : ℚ) (prices : List ℚ) :
    positionAfter entry vol stop now prices =
      runPos { entry_price := entry, volume := vol, initial_volume := vol, stop_loss := stop,
               highest_price := entry, trailing_stop_active := false, profit_targets_hit := [],
               entry_time := now, breakeven_stop_set := false } prices := by
  have h : (add_position (riskManagerInit 1000) entry vol stop now).1.active_positions =
      [{ entry_price := entry, volume := vol, initial_volume := vol, stop_loss := stop,
         highest_price := entry, trailing_stop_active := false, profit_targets_hit := [],
         entry_time := now, breakeven_stop_set := false }] := by
    simp [add_position, riskManagerInit]
  rw [positionAfter, update_run_singleton prices _ _ h]
  rfl

/-- C2 (amended): for a position created by `add_position` whose initial
stop-loss does not exceed its entry price, over any run of `update_position`
calls with positive prices the current volume stays in `[0, initial volume]`
and is non-increasing along the run, and the stop-loss is non-decreasing along
the run (the restriction `stop ≤ entry` is forced by the breakeven update,
which sets the stop to the entry price). -/
theorem claim_C2_amended (entry vol stop now price : ℚ) (prices : List ℚ)
    (hentry : 0 < entry) (hvol : 0 ≤ vol) (hstop : stop ≤ entry)
    (hprices : ∀ q ∈ prices, 0 < q) (hprice : 0 < price) :
    0 ≤ (positionAfter entry vol stop now prices).volume ∧
    (positionAfter entry vol stop now prices).volume ≤ vol ∧
    (positionAfter entry vol stop now (prices ++ [price])).volume ≤
      (positionAfter entry vol stop now prices).volume ∧
    stop ≤ (positionAfter entry vol stop now prices).stop_loss ∧
    (positionAfter entry vol stop now prices).stop_loss ≤
      (positionAfter entry vol stop now (prices ++ [price])).stop_loss := by
  set p0 : Position :=
    { entry_price := entry, volume := vol, initial_volume := vol, stop_loss := stop,
      highest_price := entry, trailing_stop_active := false, profit_targets_hit := [],
      entry_time := now, breakeven_stop_set := false } with hp0
  have hinv0 : PosInv vol p0 := by
    refine ⟨hvol, le_refl _, fun _ => hstop, by simp [hp0]⟩
  obtain ⟨hinv, hvolr, hstopr⟩ := runPos_props vol prices p0 hinv0
  obtain ⟨hinv2, hvol2, hstop2⟩ := update_position_pos_step vol (runPos p0 prices) price hinv
  rw [positionAfter_eq, positionAfter_eq, runPos_append]
  refine ⟨hinv.1, le_trans hvolr (le_of_eq rfl), ?_, ?_, ?_⟩
  · simpa [runPos] using hvol2
  · exact hstopr
  · simpa [runPos] using hstop2

/-- Witness for the amended C2 at entry 100, volume 1, stop 90 and the run
`[]` extended by the price 102. -/
theorem claim_C2_amended_witness :
    (0:ℚ) < 100 ∧ (0:ℚ) ≤ 1 ∧ (90:ℚ) ≤ 100 ∧ (∀ q ∈ ([] : List ℚ), 0 < q) ∧ (0:ℚ) < 102 ∧
    (0 ≤ (positionAfter 100 1 90 0 []).volume ∧
     (positionAfter 100 1 90 0 []).volume ≤ 1 ∧
     (positionAfter 100 1 90 0 ([] ++ [102])).volume ≤ (positionAfter 100 1 90 0 []).volume ∧
     (90:ℚ) ≤ (positionAfter 100 1 90 0 []).stop_loss ∧
     (positionAfter 100 1 90 0 []).stop_loss ≤
       (positionAfter 100 1 90 0 ([] ++ [102])).stop_loss) :=
  ⟨by norm_num, by norm_num, by norm_num, by simp, by norm_num,
   claim_C2_amended 100 1 90 0 102 [] (by norm_num) (by norm_num) (by norm_num)
     (by simp) (by norm_num)⟩

theorem lastN_map (n : ℕ) (f : ℚ → ℚ) (l : List ℚ) :
    lastN n (l.map f) = (lastN n l).map f := by
  simp [lastN, List.map_drop]

theorem lastN_subset (n : ℕ) (l : List ℚ) : lastN n l ⊆ l := List.drop_subset _ _

/-- C9: on every candle sequence of at least `period + 1` candles the RSI is
defined and lies in `[0, 100]`, and it is exactly 100 whenever every price
delta in the averaging window is non-negative. -/
theorem claim_C9 (data : List Candle) (period : ℕ) (h : period + 1 ≤ data.length) :
    ∃ v, calculate_rsi data period = some v ∧ 0 ≤ v ∧ v ≤ 100 ∧
      ((∀ d ∈ lastN period (deltasOf (data.map (·.c))), 0 ≤ d) → v = 100) := by
  have hguard : ¬ data.length < period + 1 := Nat.not_lt.mpr h
  simp only [calculate_rsi, if_neg hguard]
  set closes := data.map (·.c) with hcloses
  set deltas := deltasOf closes with hdeltas
  set losses := deltas.map (fun d => if d < 0 then -d else 0) with hlosses
  set gains := deltas.map (fun d => if 0 < d then d else 0) with hgains
  have hlossnn : 0 ≤ (lastN period losses).sum / (period : ℚ) := by
    apply div_nonneg _ (by positivity)
    apply List.sum_nonneg
    intro x hx
    have hx' := lastN_subset period losses hx
    rw [hlosses] at hx'
    obtain ⟨d, _, rfl⟩ := List.mem_map.mp hx'
    split <;> simp_all <;> linarith
  have hgainnn : 0 ≤ (lastN period gains).sum / (period : ℚ) := by
    apply div_nonneg _ (by positivity)
    apply List.sum_nonneg
    intro x hx
    have hx' := lastN_subset period gains hx
    rw [hgains] at hx'
    obtain ⟨d, _, rfl⟩ := List.mem_map.mp hx'
    split <;> simp_all <;> linarith
  by_cases hl : (lastN period losses).sum / (period : ℚ) = 0
  · refine ⟨100, by simp [hl], by norm_num, by norm_num, fun _ => rfl⟩
  · have hlpos : 0 < (lastN period losses).sum / (period : ℚ) :=
      lt_of_le_of_ne hlossnn (Ne.symm hl)
    set rs := ((lastN period gains).sum / (period : ℚ)) /
      ((lastN period losses).sum / (period : ℚ)) with hrs
    have hrsnn : 0 ≤ rs := div_nonneg hgainnn (le_of_lt hlpos)
    refine ⟨100 - 100 / (1 + rs), by simp [hl], ?_, ?_, ?_⟩
    · have : 100 / (1 + rs) ≤ 100 := div_le_self (by norm_num) (by linarith)
      linarith
    · have : 0 < 100 / (1 + rs) := div_pos (by norm_num) (by linarith)
      linarith
    · intro hall
      exfalso
      apply hl
      have hz : (lastN period losses).sum = 0 := by
        apply List.sum_eq_zero
        intro x hx
        rw [hlosses, lastN_map] at hx
        obtain ⟨d, hd, rfl⟩ := List.mem_map.mp hx
        have := hall d (by rwa [hdeltas] at hd)
        simp [not_lt.mpr this]
      rw [hz, zero_div]

/-- Witness for C9 on two candles with rising closes (RSI = 100 case included). -/
theorem claim_C9_witness :
    1 + 1 ≤ dataC9.length ∧
    ∃ v, calculate_rsi dataC9 1 = some v ∧ 0 ≤ v ∧ v ≤ 100 ∧
      ((∀ d ∈ lastN 1 (deltasOf (dataC9.map (·.c))), 0 ≤ d) → v = 100) :=
  ⟨by simp [dataC9], claim_C9 dataC9 1 (by simp [dataC9])⟩

/-- C4 fails as stated: on `trendDataC4` (2 candles, so the 20-period SMA is
undefined and the claim says the SMA check is skipped) the latest candle is
non-bearish by body dominance, so the claim's condition holds, yet
`validate_trend_alignment` rejects the bullish direction because the code
instead compares against an SMA over `min(SMA_PERIOD, len)` candles. -/
theorem claim_C4_counterexample :
    ¬ (validate_trend_alignment 1 trendDataC4 = true ↔ specC4Bullish trendDataC4) := by
  intro hiff
  have hspec : specC4Bullish trendDataC4 := by
    constructor
    · norm_num [check_hourly_trend, trendDataC4, candA, candB, get_candle_info, lastCandle]
    · intro s hs
      simp [calculate_sma, trendDataC4, SMA_PERIOD] at hs
  have hval := hiff.mpr hspec
  rw [show validate_trend_alignment 1 trendDataC4 = false by
    norm_num [validate_trend_alignment, trendDataC4, candA, candB, get_candle_info,
      lastCandle, check_hourly_trend, calculate_sma, SMA_PERIOD, lastN]] at hval
  exact Bool.false_ne_true hval

theorem sma_defined (data : List Candle) (p : ℕ) (h : p ≤ data.length) :
    ∃ s, calculate_sma data p = some s := by
  simp [calculate_sma, Nat.not_lt.mpr h]

/-- C4 (amended): validating a bullish candidate direction (+1) succeeds iff the
trend sequence has at least 2 candles, its latest candle is non-bearish by body
dominance, and its close is at or above the SMA computed over
`min(SMA_PERIOD, length)` trend candles (this SMA is always defined for the
sequences that pass the length guard, so the comparison is never skipped); a
neutral candidate direction (0) never validates. -/
theorem claim_C4_amended (trend_data : List Candle) :
    (validate_trend_alignment 1 trend_data = true ↔
      (2 ≤ trend_data.length ∧ 0 ≤ check_hourly_trend trend_data ∧
       ∀ s ∈ calculate_sma trend_data (min SMA_PERIOD trend_data.length),
         s ≤ (get_candle_info (lastCandle trend_data)).c)) ∧
    validate_trend_alignment 0 trend_data = false := by
  constructor
  · by_cases hlen : trend_data.length < 2
    · simp only [validate_trend_alignment, if_pos hlen]
      constructor
      · intro h; exact absurd h (by simp)
      · rintro ⟨h2, -⟩; omega
    · obtain ⟨s, hs⟩ := sma_defined trend_data (min SMA_PERIOD trend_data.length)
        (Nat.min_le_right _ _)
      simp only [validate_trend_alignment, if_neg hlen, hs]
      by_cases hdir : (0:Int) ≤ check_hourly_trend trend_data
      · simp only [if_pos (by norm_num : (0:Int) < 1), if_pos hdir]
        by_cases hsc : s ≤ (get_candle_info (lastCandle trend_data)).c
        · simp [hsc, hdir, Nat.le_of_not_lt hlen]
        · simp [hsc, hdir]
      · simp [hdir, (by norm_num : (0:Int) < 1)]
  · by_cases hlen : trend_data.length < 2 <;>
      simp [validate_trend_alignment, hlen]

theorem closes_scale (k : ℚ) (data : List Candle) :
    (data.map (scaleCandle k)).map (·.c) = (data.map (·.c)).map (fun x => k * x) := by
  simp [List.map_map, scaleCandle, Function.comp]

theorem sum_map_mul (k : ℚ) (l : List ℚ) : (l.map (fun x => k * x)).sum = k * l.sum := by
  simpa using List.sum_map_mul_left l id k

theorem trueRange_scale (k : ℚ) (hk : 0 ≤ k) (a b : Candle) :
    trueRange (scaleCandle k a) (scaleCandle k b) = k * trueRange a b := by
  simp only [trueRange, scaleCandle, ← mul_sub, abs_mul, abs_of_nonneg hk,
    mul_max_of_nonneg _ _ hk]

theorem true_ranges_scale (k : ℚ) (hk : 0 ≤ k) :
    ∀ data : List Candle,
      true_ranges (data.map (scaleCandle k)) = (true_ranges data).map (fun x => k * x) := by
  intro data
  induction data with
  | nil => rfl
  | cons a rest ih =>
    cases rest with
    | nil => rfl
    | cons b r2 =>
      have h1 : true_ranges (a :: b :: r2) = trueRange a b :: true_ranges (b :: r2) := rfl
      have h2 : true_ranges ((a :: b :: r2).map (scaleCandle k)) =
          trueRange (scaleCandle k a) (scaleCandle k b) ::
            true_ranges ((b :: r2).map (scaleCandle k)) := rfl
      rw [h2, ih, h1, List.map_cons, trueRange_scale k hk]

theorem sma_scale (k : ℚ) (data : List Candle) (p : ℕ) :
    calculate_sma (data.map (scaleCandle k)) p =
      (calculate_sma data p).map (fun x => k * x) := by
  by_cases h : data.length < p
  · simp [calculate_sma, h]
  · simp only [calculate_sma, List.length_map, if_neg h]
    rw [closes_scale, lastN_map, sum_map_mul, mul_div_assoc]
    rfl

theorem atr_scale (k : ℚ) (hk : 0 ≤ k) (data : List Candle) (p : ℕ) :
    calculate_atr (data.map (scaleCandle k)) p =
      (calculate_atr data p).map (fun x => k * x) := by
  by_cases h : data.length < p + 1
  · simp [calculate_atr, h]
  · simp only [calculate_atr, List.length_map, if_neg h]
    rw [true_ranges_scale k hk, List.length_map]
    by_cases h2 : (true_ranges data).length < p
    · simp [h2]
    · simp only [if_neg h2]
      rw [lastN_map, sum_map_mul, mul_div_assoc]
      rfl

theorem deltasOf_scale (k : ℚ) (closes : List ℚ) :
    deltasOf (closes.map (fun x => k * x)) = (deltasOf closes).map (fun x => k * x) := by
  have hz : ∀ l1 l2 : List ℚ,
      List.zipWith (· - ·) (l1.map (fun x => k * x)) (l2.map (fun x => k * x)) =
        (List.zipWith (· - ·) l1 l2).map (fun x => k * x) := by
    intro l1
    induction l1 with
    | nil => intro l2; rfl
    | cons a r ih =>
      intro l2
      cases l2 with
      | nil => rfl
      | cons b r2 => simp [ih, mul_sub]
  rw [deltasOf, ← List.map_tail, hz]
  rfl

theorem rsi_scale (k : ℚ) (hk : 0 < k) (data : List Candle) (p : ℕ) :
    calculate_rsi (data.map (scaleCandle k)) p = calculate_rsi data p := by
  by_cases h : data.length < p + 1
  · simp [calculate_rsi, h]
  · simp only [calculate_rsi, List.length_map, if_neg h]
    rw [closes_scale, deltasOf_scale]
    set deltas := deltasOf (data.map (·.c)) with hdel
    set G := deltas.map (fun d => if 0 < d then d else 0) with hG
    set L := deltas.map (fun d => if d < 0 then -d else 0) with hL
    have hga : (deltas.map (fun x => k * x)).map (fun d => if 0 < d then d else 0) =
        G.map (fun x => k * x) := by
      rw [hG, List.map_map, List.map_map]
      apply List.map_congr_left
      intro d _
      by_cases hd : 0 < d
      · simp [Function.comp, hd, mul_pos hk hd]
      · have hnd : ¬ 0 < k * d := by
          intro hc
          rcases mul_pos_iff.mp hc with ⟨-, hd2⟩ | ⟨hk2, -⟩
          · exact hd hd2
          · linarith
        simp [Function.comp, hd, hnd]
    have hlo : (deltas.map (fun x => k * x)).map (fun d => if d < 0 then -d else 0) =
        L.map (fun x => k * x) := by
      rw [hL, List.map_map, List.map_map]
      apply List.map_congr_left
      intro d _
      by_cases hd : d < 0
      · simp [Function.comp, hd, mul_neg_of_pos_of_neg hk hd, mul_neg]
      · have hnd : ¬ k * d < 0 := by
          intro hc
          rcases mul_neg_iff.mp hc with ⟨-, hd2⟩ | ⟨hk2, -⟩
          · exact hd hd2
          · linarith
        simp [Function.comp, hd, hnd]
    have e1 : (lastN p ((deltas.map (fun x => k * x)).map (fun d => if 0 < d then d else 0))).sum
        / (p : ℚ) = k * ((lastN p G).sum / (p : ℚ)) := by
      rw [hga, lastN_map, sum_map_mul, mul_div_assoc]
    have e2 : (lastN p ((deltas.map (fun x => k * x)).map (fun d => if d < 0 then -d else 0))).sum
        / (p : ℚ) = k * ((lastN p L).sum / (p : ℚ)) := by
      rw [hlo, lastN_map, sum_map_mul, mul_div_assoc]
    rw [e1, e2]
    by_cases hsl : (lastN p L).sum / (p : ℚ) = 0
    · simp [hsl]
    · have hknz : k * ((lastN p L).sum / (p : ℚ)) ≠ 0 := mul_ne_zero (ne_of_gt hk) hsl
      rw [if_neg hknz, if_neg hsl, mul_div_mul_left _ _ (ne_of_gt hk)]





theorem true_ranges_length (data : List Candle) :
    (true_ranges data).length = data.length - 1 := by
  simp [true_ranges, List.length_zipWith]

theorem atr_defined (data : List Candle) (p : ℕ) (h : p + 1 ≤ data.length) :
    ∃ a, calculate_atr data p = some a := by
  have h2 : ¬ (true_ranges data).length < p := by
    rw [true_ranges_length]; omega
  simp [calculate_atr, Nat.not_lt.mpr h, h2]

theorem rsi_defined (data : List Candle) (p : ℕ) (h : p + 1 ≤ data.length) :
    ∃ r, calculate_rsi data p = some r := by
  simp only [calculate_rsi, if_neg (Nat.not_lt.mpr h)]
  split_ifs <;> exact ⟨_, rfl⟩

/-- C7: for every candle sequence long enough for SMA, ATR and RSI to be
defined and every positive factor `k`, scaling all candle prices by `k`
multiplies the SMA and ATR values by exactly `k` and leaves the RSI value
unchanged. -/
theorem claim_C7 (data : List Candle) (k : ℚ) (psma patr prsi : ℕ)
    (hk : 0 < k) (h1 : psma ≤ data.length) (h2 : patr + 1 ≤ data.length)
    (h3 : prsi + 1 ≤ data.length) :
    ∃ s a r,
      calculate_sma data psma = some s ∧ calculate_atr data patr = some a ∧
      calculate_rsi data prsi = some r ∧
      calculate_sma (data.map (scaleCandle k)) psma = some (k * s) ∧
      calculate_atr (data.map (scaleCandle k)) patr = some (k * a) ∧
      calculate_rsi (data.map (scaleCandle k)) prsi = some r := by
  obtain ⟨s, hs⟩ := sma_defined data psma h1
  obtain ⟨a, ha⟩ := atr_defined data patr h2
  obtain ⟨r, hr⟩ := rsi_defined data prsi h3
  refine ⟨s, a, r, hs, ha, hr, ?_, ?_, ?_⟩
  · rw [sma_scale, hs]; rfl
  · rw [atr_scale k (le_of_lt hk), ha]; rfl
  · rw [rsi_scale k hk, hr]

/-- Witness for C7 on two concrete candles with `k = 2` and period 1. -/
theorem claim_C7_witness :
    (0:ℚ) < 2 ∧ 1 ≤ dataC9.length ∧ 1 + 1 ≤ dataC9.length ∧
    (∃ s a r,
      calculate_sma dataC9 1 = some s ∧ calculate_atr dataC9 1 = some a ∧
      calculate_rsi dataC9 1 = some r ∧
      calculate_sma (dataC9.map (scaleCandle 2)) 1 = some (2 * s) ∧
      calculate_atr (dataC9.map (scaleCandle 2)) 1 = some (2 * a) ∧
      calculate_rsi (dataC9.map (scaleCandle 2)) 1 = some r) :=
  ⟨by norm_num, by simp [dataC9], by simp [dataC9],
   claim_C7 dataC9 2 1 1 1 (by norm_num) (by simp [dataC9]) (by simp [dataC9])
     (by simp [dataC9])⟩


theorem clusterMean_pos (cur : List ℚ) (hne : cur ≠ []) (h : ∀ x ∈ cur, 0 < x) :
    0 < clusterMean cur := by
  apply div_pos (List.sum_pos cur h hne)
  simpa using List.length_pos.mpr hne

theorem le_clusterMean (cur : List ℚ) (hne : cur ≠ []) (a : ℚ) (h : ∀ x ∈ cur, a ≤ x) :
    a ≤ clusterMean cur := by
  have hlen : 0 < (cur.length : ℚ) := by simpa using List.length_pos.mpr hne
  rw [clusterMean, le_div_iff hlen]
  have := List.card_nsmul_le_sum cur a h
  rwa [nsmul_eq_mul, mul_comm] at this

theorem clusterMean_le (cur : List ℚ) (hne : cur ≠ []) (b : ℚ) (h : ∀ x ∈ cur, x ≤ b) :
    clusterMean cur ≤ b := by
  have hlen : 0 < (cur.length : ℚ) := by simpa using List.length_pos.mpr hne
  rw [clusterMean, div_le_iff hlen]
  have := List.sum_le_card_nsmul cur b h
  rwa [nsmul_eq_mul, mul_comm] at this

theorem sep_append_mean (t : ℚ) (acc cur : List ℚ) (hne : cur ≠ [])
    (hcpos : ∀ x ∈ cur, 0 < x)
    (hacc : List.Chain' (sepRel t) acc) (haccpos : ∀ x ∈ acc, 0 < x)
    (hlink : ∀ m ∈ acc.getLast?, ∀ x ∈ cur, m ≤ x ∧ (1 + t) * m ≤ x) :
    List.Chain' (sepRel t) (acc ++ [clusterMean cur]) ∧
    (∀ x ∈ acc ++ [clusterMean cur], 0 < x) := by
  constructor
  · rw [List.chain'_append]
    refine ⟨hacc, List.chain'_singleton _, ?_⟩
    intro m hm y hy
    simp only [List.head?_cons, Option.mem_some_iff] at hy
    subst hy
    have hmpos : 0 < m := haccpos m (List.mem_of_mem_getLast? hm)
    have hm1 : m ≤ clusterMean cur :=
      le_clusterMean cur hne m (fun x hx => (hlink m hm x hx).1)
    have hm2 : (1 + t) * m ≤ clusterMean cur :=
      le_clusterMean cur hne _ (fun x hx => (hlink m hm x hx).2)
    refine ⟨hm1, ?_⟩
    rw [abs_of_nonneg (sub_nonneg.mpr hm1), not_lt, le_div_iff hmpos]
    linarith
  · intro x hx
    rcases List.mem_append.mp hx with h | h
    · exact haccpos x h
    · simp only [List.mem_singleton] at h
      subst h
      exact clusterMean_pos cur hne hcpos

theorem clusterFold_sep (t : ℚ) :
    ∀ (rest cur acc : List ℚ),
      cur ≠ [] →
      (∀ x ∈ cur, 0 < x) →
      (∀ x ∈ cur, x ≤ cur.headD 0) →
      (∀ x ∈ rest, 0 < x) →
      List.Sorted (· ≤ ·) (cur.headD 0 :: rest) →
      List.Chain' (sepRel t) acc →
      (∀ x ∈ acc, 0 < x) →
      (∀ m ∈ acc.getLast?, ∀ x ∈ cur, m ≤ x ∧ (1 + t) * m ≤ x) →
      clusterSep t (clusterFold t acc cur rest) := by
  intro rest
  induction rest with
  | nil =>
    intro cur acc hne hcpos hchead hrpos hsort hacc haccpos hlink
    obtain ⟨hchain, hpos⟩ := sep_append_mean t acc cur hne hcpos hacc haccpos hlink
    exact ⟨hpos, hchain⟩
  | cons level rest ih =>
    intro cur acc hne hcpos hchead hrpos hsort hacc haccpos hlink
    have hdmem : cur.headD 0 ∈ cur := by
      cases cur with
      | nil => exact absurd rfl hne
      | cons a r => simp
    have hdpos : 0 < cur.headD 0 := hcpos _ hdmem
    have hdlev : cur.headD 0 ≤ level :=
      (List.sorted_cons.mp hsort).1 level (by simp)
    have hlevpos : 0 < level := hrpos level (by simp)
    have hsort' : List.Sorted (· ≤ ·) (level :: rest) :=
      (List.sorted_cons.mp hsort).2
    simp only [clusterFold]
    split_ifs with htest
    · -- level joins the current cluster
      apply ih (level :: cur) acc (by simp)
      · intro x hx
        rcases List.mem_cons.mp hx with h | h
        · subst h; exact hlevpos
        · exact hcpos x h
      · intro x hx
        rcases List.mem_cons.mp hx with h | h
        · subst h; simp
        · simpa using le_trans (hchead x h) hdlev
      · intro x hx; exact hrpos x (by simp [hx])
      · simpa using hsort'
      · exact hacc
      · exact haccpos
      · intro m hm x hx
        rcases List.mem_cons.mp hx with h | h
        · subst h
          obtain ⟨hm1, hm2⟩ := hlink m hm _ hdmem
          exact ⟨le_trans hm1 hdlev, le_trans hm2 hdlev⟩
        · exact hlink m hm x h
    · -- flush the cluster and start a new one at level
      obtain ⟨hchain, hpos⟩ := sep_append_mean t acc cur hne hcpos hacc haccpos hlink
      have hgap : (1 + t) * (cur.headD 0) ≤ level := by
        rw [abs_of_nonneg (sub_nonneg.mpr hdlev), not_lt, le_div_iff hdpos] at htest
        linarith
      apply ih [level] (acc ++ [clusterMean cur]) (by simp)
      · simp [hlevpos]
      · simp
      · intro x hx; exact hrpos x (by simp [hx])
      · simpa using hsort'
      · exact hchain
      · exact hpos
      · intro m hm x hx
        rw [List.getLast?_concat] at hm
        simp only [Option.mem_some_iff] at hm
        subst hm
        simp only [List.mem_singleton] at hx
        subst hx
        have hmean_le : clusterMean cur ≤ cur.headD 0 := clusterMean_le cur hne _ hchead
        refine ⟨le_trans hmean_le hdlev, ?_⟩
        rcases le_or_lt 0 (1 + t) with h1t | h1t
        · have := mul_le_mul_of_nonneg_left hmean_le h1t
          linarith
        · have hmp : 0 < clusterMean cur := clusterMean_pos cur hne hcpos
          have := mul_neg_of_neg_of_pos h1t hmp
          linarith

theorem cluster_levels_sep (levels : List ℚ) (t : ℚ) (hpos : ∀ x ∈ levels, 0 < x) :
    clusterSep t (_cluster_levels levels t) := by
  have hperm := List.perm_insertionSort (· ≤ ·) levels
  have hsorted := List.sorted_insertionSort (· ≤ ·) levels
  have hpos' : ∀ x ∈ List.insertionSort (· ≤ ·) levels, 0 < x :=
    fun x hx => hpos x (hperm.mem_iff.mp hx)
  rw [_cluster_levels]
  cases hs : List.insertionSort (· ≤ ·) levels with
  | nil => exact ⟨by simp, by simp⟩
  | cons x rest =>
    rw [hs] at hsorted hpos'
    apply clusterFold_sep t rest [x] [] (by simp)
    · simpa using hpos' x (by simp)
    · simp
    · intro y hy; exact hpos' y (by simp [hy])
    · simpa using hsorted
    · simp
    · simp
    · simp

theorem clusterFold_fixed (t : ℚ) :
    ∀ (rest : List ℚ) (x : ℚ) (acc : List ℚ),
      List.Chain' (sepRel t) (x :: rest) →
      clusterFold t acc [x] rest = acc ++ x :: rest := by
  intro rest
  induction rest with
  | nil =>
    intro x acc _
    simp [clusterFold, clusterMean]
  | cons y rest ih =>
    intro x acc h
    have hxy : sepRel t x y := (List.chain'_cons.mp h).1
    have htail : List.Chain' (sepRel t) (y :: rest) := (List.chain'_cons.mp h).2
    simp only [clusterFold, List.headD_cons]
    rw [if_neg hxy.2, ih y _ htail]
    simp [clusterMean]

theorem cluster_levels_fixed (t : ℚ) (m : List ℚ) (hsep : clusterSep t m) :
    _cluster_levels m t = m := by
  obtain ⟨hpos, hchain⟩ := hsep
  have hsorted : List.Sorted (· ≤ ·) m :=
    List.chain'_iff_pairwise.mp (hchain.imp (fun a b h => h.1))
  rw [_cluster_levels, List.Sorted.insertionSort_eq hsorted]
  cases m with
  | nil => rfl
  | cons x rest =>
    show clusterFold t [] [x] rest = x :: rest
    rw [clusterFold_fixed t rest x [] hchain]
    rfl

/-- C8: for every list of positive price levels and any relative threshold,
`_cluster_levels` is idempotent — clustering an already-clustered list with the
same threshold returns it unchanged. -/
theorem claim_C8 (levels : List ℚ) (t : ℚ) (hpos : ∀ x ∈ levels, 0 < x) :
    _cluster_levels (_cluster_levels levels t) t = _cluster_levels levels t :=
  cluster_levels_fixed t _ (cluster_levels_sep levels t hpos)

/-- Witness for C8 on the levels `[100, 100.4, 105]` with threshold 0.005. -/
theorem claim_C8_witness :
    (∀ x ∈ ([100, 502/5, 105] : List ℚ), 0 < x) ∧
    _cluster_levels (_cluster_levels [100, 502/5, 105] (1/200)) (1/200) =
      _cluster_levels [100, 502/5, 105] (1/200) :=
  ⟨by intro x hx; fin_cases hx <;> norm_num,
   claim_C8 [100, 502/5, 105] (1/200) (by intro x hx; fin_cases hx <;> norm_num)⟩

end KrakenBots
